import Mathlib

/-
Verification development for the retrieval-and-synthesis pipeline in
`src/api/rag_engine.py`.

The Python source is shallowly embedded below.  Modelling conventions:

 * Python strings are Lean `String`s; all character-level work is done on
   `String.data : List Char` with structural (fuel-based where needed)
   recursion so every definition evaluates inside the kernel.
 * Python `None` is `Option.none`; a JSON value parsed by `json.loads` is a
   value of the inductive type `Json` below (Python `None` and JSON `null`
   are both treated as absent/`Json.null` exactly where the source treats
   them identically).
 * The two network collaborators (query embedding + chat completion) and
   `scipy`'s `cdist` row are modelled as explicit inputs: `retrieve_local`
   receives the distance row, `llm_answer` receives the raw completion text
   and the ranked hit indices.
 * `numpy.argsort` (default, unstable `kind='quicksort'`) is modelled as an
   arbitrary function satisfying the sorting contract `ArgsortSpec`
   (it returns a permutation of all row indices along which the distances
   are non-decreasing); numpy does not guarantee tie stability for the
   default kind.
 * Python regexes appearing in the source are hand-compiled to equivalent
   deterministic scanners (each is commented with the regex it implements).
   `\s` / `\d` are modelled on their ASCII subsets and `str.splitlines`
   on the usual line terminators; exotic Unicode whitespace/digit
   classes and lone-surrogate escapes are outside the model's domain.
 * `unicodedata.normalize("NFC", ·)` and `str.casefold` are kept abstract:
   functions `nfc fold : String → String` are parameters everywhere.
 * The process-global corpus `chunks` (loaded from `chunks.json`) is a
   `List Chunk` parameter, and the startup filename index `_AVAILABLE_DOCS`
   is an association list parameter `avail` (NFC key, actual name value).
-/

/-! ### Python character/string primitives -/

/-- ASCII part of Python's `\s` (and of `str.strip()` whitespace). -/
def pySpace (c : Char) : Bool :=
  c = ' ' || c = '\t' || c = '\n' || c = '\r' || c = '\x0b' || c = '\x0c'

/-- ASCII part of Python's `\d`. -/
def pyDigit (c : Char) : Bool :=
  '0' ≤ c && c ≤ '9'

/-- Numeric value of a decimal digit character. -/
def digitVal (c : Char) : Nat := c.toNat - 48

/-- Decimal value of a digit run (the `int(...)` of a `\d+` capture). -/
def digitsToNat (ds : List Char) : Nat :=
  ds.foldl (fun acc c => acc * 10 + digitVal c) 0

/-- Drop a maximal run of Python whitespace from the front. -/
def dropSpaces (cs : List Char) : List Char := cs.dropWhile pySpace

/-- Python `str.strip()` on a character list. -/
def pyStripList (cs : List Char) : List Char :=
  ((cs.dropWhile pySpace).reverse.dropWhile pySpace).reverse

/-- Python `str.strip()`. -/
def pyStrip (s : String) : String := String.mk (pyStripList s.data)

/-- Python `str.strip(chars)` for a one-character `chars` argument. -/
def pyStripChar (ch : Char) (cs : List Char) : List Char :=
  ((cs.dropWhile (· = ch)).reverse.dropWhile (· = ch)).reverse

/-- Python `str.rstrip("/")` (used by `viewer_url` on the base URL). -/
def pyRstripSlash (s : String) : String :=
  String.mk (s.data.reverse.dropWhile (· = '/')).reverse

/-- Replace every occurrence of a character by another (models
`str.replace(",", " ")` / `str.replace(";", " ")`). -/
def replaceChar (a b : Char) (s : String) : String :=
  String.mk (s.data.map (fun c => if c = a then b else c))

/-- Python `str.splitlines()` on the common terminators
`\n`, `\r`, `\r\n`, `\x0b`, `\x0c`. -/
def pySplitlinesAux : List Char → List Char → List String
  | [], acc => if acc.isEmpty then [] else [String.mk acc.reverse]
  | '\r' :: '\n' :: rest, acc => String.mk acc.reverse :: pySplitlinesAux rest []
  | '\r' :: rest, acc => String.mk acc.reverse :: pySplitlinesAux rest []
  | '\n' :: rest, acc => String.mk acc.reverse :: pySplitlinesAux rest []
  | '\x0b' :: rest, acc => String.mk acc.reverse :: pySplitlinesAux rest []
  | '\x0c' :: rest, acc => String.mk acc.reverse :: pySplitlinesAux rest []
  | c :: rest, acc => pySplitlinesAux rest (c :: acc)

/-- Python `str.splitlines()`. -/
def pySplitlines (s : String) : List String := pySplitlinesAux s.data []

/-- Python `os.path.basename` for POSIX paths: everything after the last
slash. -/
def osBasename (s : String) : String :=
  String.mk ((s.data.reverse.takeWhile (· ≠ '/')).reverse)

/-- Python truthiness of an optional string (`None` and `""` are falsy). -/
def strTruthy : Option String → Bool
  | none => false
  | some s => s ≠ ""

/-- Python `a or b` for an optional string `a` and a string default. -/
def pyOrStr (a : Option String) (b : String) : String :=
  match a with
  | none => b
  | some s => if s = "" then b else s

/-! ### The JSON value model

Models the values produced by Python's `json.loads` on the JSON fragment
this program exchanges with the model: objects keep key order (later
duplicate keys overwrite the value in place, as Python dicts do), and
non-integer numeric literals are kept as their source token (`fnum`) —
no claim inspects a float value. -/

inductive Json where
  | null : Json
  | bool (b : Bool) : Json
  | num (n : Int) : Json
  | fnum (tok : String) : Json
  | str (s : String) : Json
  | arr (xs : List Json) : Json
  | obj (kvs : List (String × Json)) : Json

/-- Python dict read `d.get(k)` on the ordered association list. -/
def getK : List (String × Json) → String → Option Json
  | [], _ => none
  | (k0, v0) :: rest, k => if k0 = k then some v0 else getK rest k

/-- Python dict write `d[k] = v`: overwrite in place, else append. -/
def objInsert : List (String × Json) → String → Json → List (String × Json)
  | [], k, v => [(k, v)]
  | (k0, v0) :: rest, k, v =>
      if k0 = k then (k0, v) :: rest else (k0, v0) :: objInsert rest k v

/-- Python truthiness of a value fetched with `d.get(k)` (`not d.get(k)`);
missing keys give `None` which is falsy.  Non-integer floats are modelled
as truthy (`0.0` never occurs on the paths under study). -/
def jsonTruthy : Option Json → Bool
  | none => false
  | some Json.null => false
  | some (Json.bool b) => b
  | some (Json.num n) => n ≠ 0
  | some (Json.fnum _) => true
  | some (Json.str s) => s ≠ ""
  | some (Json.arr xs) => !xs.isEmpty
  | some (Json.obj kvs) => !kvs.isEmpty

/-! ### A model of Python's strict `json.loads` -/

/-- JSON structural whitespace (Python's json module accepts exactly
space, tab, newline, carriage return). -/
def jWs (c : Char) : Bool := c = ' ' || c = '\t' || c = '\n' || c = '\r'

/-- Drop JSON whitespace. -/
def jSkip (cs : List Char) : List Char := cs.dropWhile jWs

/-- Hexadecimal digit value. -/
def hexVal (c : Char) : Option Nat :=
  let u := c.toNat
  if 48 ≤ u && u ≤ 57 then some (u - 48)
  else if 97 ≤ u && u ≤ 102 then some (u - 87)
  else if 65 ≤ u && u ≤ 70 then some (u - 55)
  else none

/-- Four hex digits of a `\uXXXX` escape. -/
def hex4 : List Char → Option (Nat × List Char)
  | a :: b :: c :: d :: rest =>
      match hexVal a, hexVal b, hexVal c, hexVal d with
      | some x, some y, some z, some w => some (((x * 16 + y) * 16 + z) * 16 + w, rest)
      | _, _, _, _ => none
  | _ => none

/-- Parse the remainder of a JSON string literal (after the opening
quote).  Strict mode: unescaped control characters are rejected; surrogate
pairs are combined; lone surrogates are outside the model. -/
def jParseStr : Nat → List Char → Option (List Char × List Char)
  | 0, _ => none
  | _ + 1, [] => none
  | fuel + 1, c :: rest =>
      if c = '"' then some ([], rest)
      else if c = '\\' then
        match rest with
        | [] => none
        | e :: r2 =>
          if e = 'u' then
            match hex4 r2 with
            | none => none
            | some (code, r3) =>
                if 0xD800 ≤ code && code < 0xDC00 then
                  match r3 with
                  | '\\' :: 'u' :: r4 =>
                      match hex4 r4 with
                      | some (lo, r5) =>
                          if 0xDC00 ≤ lo && lo < 0xE000 then
                            match jParseStr fuel r5 with
                            | some (tail, rem) =>
                                some (Char.ofNat (0x10000 + (code - 0xD800) * 0x400 + (lo - 0xDC00)) :: tail, rem)
                            | none => none
                          else none
                      | none => none
                  | _ => none
                else if 0xDC00 ≤ code && code < 0xE000 then none
                else
                  match jParseStr fuel r3 with
                  | some (tail, rem) => some (Char.ofNat code :: tail, rem)
                  | none => none
          else
            let lit : Option Char :=
              if e = '"' then some '"'
              else if e = '\\' then some '\\'
              else if e = '/' then some '/'
              else if e = 'b' then some '\x08'
              else if e = 'f' then some '\x0c'
              else if e = 'n' then some '\n'
              else if e = 'r' then some '\r'
              else if e = 't' then some '\t'
              else none
            match lit with
            | none => none
            | some ch =>
                match jParseStr fuel r2 with
                | some (tail, rem) => some (ch :: tail, rem)
                | none => none
      else if c.toNat < 0x20 then none
      else
        match jParseStr fuel rest with
        | some (tail, rem) => some (c :: tail, rem)
        | none => none

/-- Parse a JSON number token.  Integers become `Json.num`; tokens with a
fraction or exponent keep their text as `Json.fnum`. -/
def jParseNum (cs : List Char) : Option (Json × List Char) :=
  let (sign, cs1) :=
    match cs with
    | '-' :: rest => (true, rest)
    | _ => (false, cs)
  let intPart : Option (List Char × List Char) :=
    match cs1 with
    | '0' :: rest => some (['0'], rest)
    | c :: rest =>
        if pyDigit c && c ≠ '0' then
          some (c :: rest.takeWhile pyDigit, rest.dropWhile pyDigit)
        else none
    | [] => none
  match intPart with
  | none => none
  | some (ids, cs2) =>
    let (fracTok, cs3) :=
      match cs2 with
      | '.' :: r =>
          let ds := r.takeWhile pyDigit
          if ds.isEmpty then ([], cs2) else ('.' :: ds, r.dropWhile pyDigit)
      | _ => ([], cs2)
    let fracOk : Bool := match cs2 with | '.' :: _ => !fracTok.isEmpty | _ => true
    if !fracOk then none
    else
      let (expTok, cs4) :=
        match cs3 with
        | e :: r =>
            if e = 'e' || e = 'E' then
              let (sgn, r1) :=
                match r with
                | s :: r1 => if s = '+' || s = '-' then ([s], r1) else ([], r)
                | [] => ([], r)
              let ds := r1.takeWhile pyDigit
              if ds.isEmpty then (([] : List Char), cs3)
              else (e :: (sgn ++ ds), r1.dropWhile pyDigit)
            else ([], cs3)
        | [] => ([], cs3)
      let expOk : Bool :=
        match cs3 with
        | e :: _ => if e = 'e' || e = 'E' then !expTok.isEmpty else true
        | [] => true
      if !expOk then none
      else if fracTok.isEmpty && expTok.isEmpty then
        let n : Int := Int.ofNat (digitsToNat ids)
        some (Json.num (if sign then -n else n), cs4)
      else
        some (Json.fnum (String.mk ((if sign then ['-'] else []) ++ ids ++ fracTok ++ expTok)), cs4)

mutual

/-- Parse one JSON value (leading whitespace already skipped). -/
def jParseVal : Nat → List Char → Option (Json × List Char)
  | 0, _ => none
  | _ + 1, [] => none
  | fuel + 1, c :: rest =>
      if c = '"' then
        match jParseStr (fuel + 1) rest with
        | some (chars, rem) => some (Json.str (String.mk chars), rem)
        | none => none
      else if c = '{' then
        let r := jSkip rest
        match r with
        | '}' :: rem => some (Json.obj [], rem)
        | _ =>
          match jParseMembers fuel r [] with
          | some (kvs, rem) => some (Json.obj kvs, rem)
          | none => none
      else if c = '[' then
        let r := jSkip rest
        match r with
        | ']' :: rem => some (Json.arr [], rem)
        | _ =>
          match jParseElems fuel r with
          | some (xs, rem) => some (Json.arr xs, rem)
          | none => none
      else if c = 't' then
        match rest with
        | 'r' :: 'u' :: 'e' :: rem => some (Json.bool true, rem)
        | _ => none
      else if c = 'f' then
        match rest with
        | 'a' :: 'l' :: 's' :: 'e' :: rem => some (Json.bool false, rem)
        | _ => none
      else if c = 'n' then
        match rest with
        | 'u' :: 'l' :: 'l' :: rem => some (Json.null, rem)
        | _ => none
      else jParseNum (c :: rest)

/-- Parse `string : value (, string : value)*` then the closing brace. -/
def jParseMembers : Nat → List Char → List (String × Json) →
    Option (List (String × Json) × List Char)
  | 0, _, _ => none
  | fuel + 1, cs, acc =>
      match cs with
      | '"' :: afterQuote =>
          (jParseStr (fuel + 1) afterQuote).bind fun keyAndRest =>
            match jSkip keyAndRest.2 with
            | ':' :: afterColon =>
                (jParseVal fuel (jSkip afterColon)).bind fun valAndRest =>
                  let acc1 := objInsert acc (String.mk keyAndRest.1) valAndRest.1
                  match jSkip valAndRest.2 with
                  | ',' :: more => jParseMembers fuel (jSkip more) acc1
                  | '}' :: more => some (acc1, more)
                  | _ => none
            | _ => none
      | _ => none

/-- Parse `value (, value)*` then the closing bracket. -/
def jParseElems : Nat → List Char → Option (List Json × List Char)
  | 0, _ => none
  | fuel + 1, cs =>
      (jParseVal fuel cs).bind fun valAndRest =>
        match jSkip valAndRest.2 with
        | ',' :: more =>
            (jParseElems fuel (jSkip more)).map fun tailAndRest =>
              (valAndRest.1 :: tailAndRest.1, tailAndRest.2)
        | ']' :: more => some ([valAndRest.1], more)
        | _ => none

end

/-- Model of Python's strict `json.loads`: `none` models a raised
`JSONDecodeError` (the `NaN`/`Infinity` extensions are outside the
model's domain). -/
def json_loads (s : String) : Option Json :=
  match jParseVal (s.data.length + 1) (jSkip s.data) with
  | some (v, rest) => if jSkip rest = [] then some v else none
  | none => none

/-! ### The JSON repair chain (`_fix_json_common_issues`) -/

/-- The ASCII apostrophe (single quote). -/
def squot : Char := Char.ofNat 39

/-- The ASCII backtick. -/
def btick : Char := Char.ofNat 96

/-- Case-insensitive prefix test for an ASCII-lowercase pattern
(models `re.I` on the literal tags). -/
def prefCI : List Char → List Char → Bool
  | [], _ => true
  | _ :: _, [] => false
  | p :: ps, c :: cs => (c.toLower = p) && prefCI ps cs

/-- Remainder after the first case-insensitive occurrence of `pat`. -/
def dropPastPat (pat : List Char) : Nat → List Char → Option (List Char)
  | 0, _ => none
  | fuel + 1, cs =>
      if prefCI pat cs then some (cs.drop pat.length)
      else
        match cs with
        | [] => none
        | _ :: rest => dropPastPat pat fuel rest

/-- Content before the first case-insensitive occurrence of `pat`
(the lazy `([\s\S]*?)` capture). -/
def takeToPat (pat : List Char) : Nat → List Char → Option (List Char)
  | 0, _ => none
  | fuel + 1, cs =>
      if prefCI pat cs then some []
      else
        match cs with
        | [] => none
        | c :: rest =>
            match takeToPat pat fuel rest with
            | some inner => some (c :: inner)
            | none => none

/-- Inner capture of `re.search(r"<json>([\s\S]*?)</json>", s, flags=re.I)`. -/
def tagInner (cs : List Char) : Option (List Char) :=
  match dropPastPat "<json>".data (cs.length + 1) cs with
  | some r => takeToPat "</json>".data (r.length + 1) r
  | none => none

/-- Index of the last occurrence of a character (Python `str.rfind`). -/
def lastIdxOf (ch : Char) (cs : List Char) : Option Nat :=
  match cs.reverse.findIdx? (· = ch) with
  | some k => some (cs.length - 1 - k)
  | none => none

/-- Smart-quote normalisation (the chained `str.replace` calls). -/
def smartQ (c : Char) : Char :=
  if c = '“' || c = '”' || c = '„' || c = '‟' then '"'
  else if c = '’' || c = '‘' then squot
  else c

/-- Scan a lazy `(.*?)'` body: walk to a closing single quote whose suffix
passes `endChk`; `.` does not match a newline. -/
def sqBodyScan (endChk : List Char → Bool) : Nat → List Char → Bool
  | 0, _ => false
  | _ + 1, [] => false
  | fuel + 1, c :: rest =>
      if c = squot then
        if endChk rest then true else sqBodyScan endChk fuel rest
      else if c = '\n' then false
      else sqBodyScan endChk fuel rest

/-- Suffix check for the key detector: `\s*` then `:`. -/
def endsColon (cs : List Char) : Bool :=
  match dropSpaces cs with
  | ':' :: _ => true
  | _ => false

/-- Suffix check for the value detector: `\s*` then one of `}`, `]`, `,`. -/
def endsCloser (cs : List Char) : Bool :=
  match dropSpaces cs with
  | c :: _ => c = '}' || c = ']' || c = ','
  | [] => false

/-- Single-quoted body starting here, with the given suffix check. -/
def sqAt (endChk : List Char → Bool) (cs : List Char) : Bool :=
  match cs with
  | c :: rest => c = squot && sqBodyScan endChk (rest.length + 1) rest
  | [] => false

/-- Loop of `re.search(r"(^|[{\[,]\s*)'(.*?)'\s*:", s)` over inner
positions (the bracket alternative of the group). -/
def pat1Loop : Nat → List Char → Bool
  | 0, _ => false
  | _ + 1, [] => false
  | fuel + 1, c :: rest =>
      (if c = '{' || c = '[' || c = ',' then sqAt endsColon (dropSpaces rest) else false)
      || pat1Loop fuel rest

/-- Detector `re.search(r"(^|[{\[,]\s*)'(.*?)'\s*:", s)` as a Bool. -/
def hasSingleKeyPat (cs : List Char) : Bool :=
  sqAt endsColon cs || pat1Loop cs.length cs

/-- Loop of `re.search(r":\s*'(.*?)'(\s*[}\],])", s)`. -/
def pat2Loop : Nat → List Char → Bool
  | 0, _ => false
  | _ + 1, [] => false
  | fuel + 1, c :: rest =>
      (if c = ':' then sqAt endsCloser (dropSpaces rest) else false)
      || pat2Loop fuel rest

/-- Detector `re.search(r":\s*'(.*?)'(\s*[}\],])", s)` as a Bool. -/
def hasSingleValPat (cs : List Char) : Bool := pat2Loop cs.length cs

/-- The substitution `re.sub(r"(?<!\\)'", '"', s)`: every single quote not
preceded by a backslash becomes a double quote. -/
def replUnescQ : Option Char → List Char → List Char
  | _, [] => []
  | prev, c :: rest =>
      (if c = squot && prev ≠ some '\\' then '"' else c) :: replUnescQ (some c) rest

/-- The substitution `re.sub(r",\s*([}\]])", r"\1", s)`: drop a comma that
is followed (over whitespace) by a closing brace/bracket. -/
def rmTrailCommas : Nat → List Char → List Char
  | 0, cs => cs
  | _ + 1, [] => []
  | fuel + 1, c :: rest =>
      if c = ',' then
        match dropSpaces rest with
        | b :: r2 =>
            if b = '}' || b = ']' then b :: rmTrailCommas fuel r2
            else c :: rmTrailCommas fuel rest
        | [] => c :: rmTrailCommas fuel rest
      else c :: rmTrailCommas fuel rest

/-- Model of `_fix_json_common_issues` from `src/api/rag_engine.py`. -/
def fix_json_common_issues (s : String) : String :=
  let cs0 := pyStripChar '*' (pyStripChar btick (pyStripList s.data))
  let cs1 :=
    match tagInner cs0 with
    | some inner => pyStripList inner
    | none =>
        match cs0.findIdx? (· = '{'), lastIdxOf '}' cs0 with
        | some i, some j => if i < j then (cs0.drop i).take (j + 1 - i) else cs0
        | _, _ => cs0
  let cs2 := cs1.map smartQ
  let cs3 :=
    if hasSingleKeyPat cs2 || hasSingleValPat cs2 then replUnescQ none cs2 else cs2
  String.mk (rmTrailCommas cs3.length cs3)

/-- Model of `_safe_json_loads`: strict parse, then repair-and-reparse,
then the always-succeeding error fallback. -/
def safe_json_loads (raw : String) : Json :=
  match json_loads raw with
  | some v => v
  | none =>
      let fixed := fix_json_common_issues raw
      match json_loads fixed with
      | some v => v
      | none =>
          Json.obj [("status", Json.str "error"),
                    ("answer", Json.str (String.mk (fixed.data.take 800))),
                    ("sources", Json.arr [])]

/-! ### Answer coercion (`_coerce_answer_text`) -/

mutual

/-- Python `str(...)` on a parsed JSON value (container reprs use the
simple single-quote form; `repr`'s alternate-quote rules and float
re-formatting are outside the model's domain). -/
def pyStr : Json → String
  | Json.null => "None"
  | Json.bool true => "True"
  | Json.bool false => "False"
  | Json.num n => toString n
  | Json.fnum tok => tok
  | Json.str s => s
  | Json.arr xs => "[" ++ pyReprList xs ++ "]"
  | Json.obj kvs => "\x7b" ++ pyReprKVs kvs ++ "\x7d"

/-- Python `repr(...)` on a parsed JSON value. -/
def pyRepr : Json → String
  | Json.str s => String.mk (squot :: s.data) ++ String.mk [squot]
  | Json.null => "None"
  | Json.bool true => "True"
  | Json.bool false => "False"
  | Json.num n => toString n
  | Json.fnum tok => tok
  | Json.arr xs => "[" ++ pyReprList xs ++ "]"
  | Json.obj kvs => "\x7b" ++ pyReprKVs kvs ++ "\x7d"

/-- Comma-joined element reprs of a Python list. -/
def pyReprList : List Json → String
  | [] => ""
  | [x] => pyRepr x
  | x :: xs => pyRepr x ++ ", " ++ pyReprList xs

/-- Comma-joined `key: value` reprs of a Python dict. -/
def pyReprKVs : List (String × Json) → String
  | [] => ""
  | [(k, v)] => pyRepr (Json.str k) ++ ": " ++ pyRepr v
  | (k, v) :: kvs => pyRepr (Json.str k) ++ ": " ++ pyRepr v ++ ", " ++ pyReprKVs kvs

end

/-- Test for `re.match(r"^\d+\.\s", item)`. -/
def startsNumDot (cs : List Char) : Bool :=
  let ds := cs.takeWhile pyDigit
  if ds.isEmpty then false
  else
    match cs.drop ds.length with
    | '.' :: s :: _ => pySpace s
    | _ => false

/-- The numbered-line builder of `_coerce_answer_text` (list branch),
with one-based `enumerate`. -/
def coerceItems (i : Nat) : List Json → List String
  | [] => []
  | item :: rest =>
      let t :=
        match item with
        | Json.arr xs => String.intercalate "; " (xs.map pyStr)
        | v => pyStr v
      let t1 := pyStrip t
      let t2 := if startsNumDot t1.data then t1 else Nat.repr i ++ ". " ++ t1
      t2 :: coerceItems (i + 1) rest

/-- Model of `_coerce_answer_text` (`none` is Python `None`, i.e. both a
missing key and JSON `null`). -/
def coerce_answer_text : Option Json → String
  | none => ""
  | some Json.null => ""
  | some (Json.arr xs) => String.intercalate "\n" (coerceItems 1 xs)
  | some v => pyStrip (pyStr v)

/-! ### The corpus data model -/

/-- One chunk record of `chunks.json` (see spec §3: `page` is optional and
absent pages are treated as page 0 downstream). -/
structure Chunk where
  text : String := ""
  doc_id : Option String := none
  page : Option Int := none
  title : Option String := none
  local_name : Option String := none
  path : Option String := none
deriving DecidableEq, Repr, Inhabited

/-- Lookup in the startup filename index (a Python dict with unique keys,
modelled as an ordered association list). -/
def getS : List (String × String) → String → Option String
  | [], _ => none
  | (k0, v0) :: rest, k => if k0 = k then some v0 else getS rest k

/-- Model of `resolve_local_filename`.  `nfc` models
`unicodedata.normalize("NFC", ·)` and `fold` models `str.casefold`; both
are abstract parameters.  `avail` is `_AVAILABLE_DOCS`. -/
def resolve_local_filename (nfc fold : String → String)
    (avail : List (String × String)) (name : Option String) : Option String :=
  match name with
  | none => none
  | some s =>
      if s = "" then none
      else
        let norm := nfc s
        let foldHit : Option String :=
          (avail.find? (fun kv => fold kv.1 = fold norm)).map (·.2)
        match getS avail norm with
        | some v => if v = "" then foldHit else some v
        | none => foldHit

/-! ### Viewer URLs (`viewer_url`, `link_for`) -/

/-- Characters `urllib.parse.quote` leaves unescaped (always-safe set plus
the default `safe='/'`). -/
def quoteSafeChar (c : Char) : Bool :=
  ('A' ≤ c && c ≤ 'Z') || ('a' ≤ c && c ≤ 'z') || pyDigit c ||
    c = '_' || c = '.' || c = '-' || c = '~' || c = '/'

/-- UTF-8 bytes of one character. -/
def utf8Bytes (c : Char) : List Nat :=
  let n := c.toNat
  if n < 0x80 then [n]
  else if n < 0x800 then [0xC0 + n / 0x40, 0x80 + n % 0x40]
  else if n < 0x10000 then
    [0xE0 + n / 0x1000, 0x80 + (n / 0x40) % 0x40, 0x80 + n % 0x40]
  else
    [0xF0 + n / 0x40000, 0x80 + (n / 0x1000) % 0x40, 0x80 + (n / 0x40) % 0x40, 0x80 + n % 0x40]

/-- Uppercase hexadecimal digit. -/
def hexUp (n : Nat) : Char :=
  if n < 10 then Char.ofNat ('0'.toNat + n) else Char.ofNat ('A'.toNat + n - 10)

/-- Model of `urllib.parse.quote` with the default `safe='/'`. -/
def pyQuote (s : String) : String :=
  String.mk (s.data.flatMap (fun c =>
    if quoteSafeChar c then [c]
    else (utf8Bytes c).flatMap (fun b => ['%', hexUp (b / 16), hexUp (b % 16)])))

/-- Model of `viewer_url`.  The `page` argument is the Python `int | None`
value; `f"?page={int(page)}" if page else ""` appends the query exactly
when the page is a non-`None`, non-zero integer. -/
def viewer_url (nfc fold : String → String) (avail : List (String × String))
    (local_name base_url : String) (page : Option Int) : String :=
  let actual :=
    match resolve_local_filename nfc fold avail (some local_name) with
    | some v => if v = "" then local_name else v
    | none => local_name
  let base := pyRstripSlash base_url
  let qname := pyQuote actual
  let suffix := "/viewer/" ++ qname
  let query :=
    match page with
    | some n => if n = 0 then "" else "?page=" ++ toString n
    | none => ""
  base ++ suffix ++ query

/-- The dynamically-typed `page` argument of `link_for` (`None`, an int,
or a string; other types also make `int(page)` raise and behave like
`pnone`/unparsable strings). -/
inductive PageArg where
  | pnone : PageArg
  | pint (n : Int) : PageArg
  | pstr (s : String) : PageArg
deriving DecidableEq, Repr

/-- Python `int(s)` on a string (ASCII digits, optional sign, surrounding
whitespace); `none` models a raised `ValueError`. -/
def pyIntOfStr (s : String) : Option Int :=
  let cs := pyStripList s.data
  let signed : Bool × List Char :=
    match cs with
    | '-' :: r => (true, r)
    | '+' :: r => (false, r)
    | _ => (false, cs)
  let ds := signed.2
  if ds.isEmpty || !(ds.all pyDigit) then none
  else some (if signed.1 then -(Int.ofNat (digitsToNat ds)) else Int.ofNat (digitsToNat ds))

/-- The `try: int(page) except (TypeError, ValueError): None` of
`link_for`. -/
def pyIntOfPage : PageArg → Option Int
  | PageArg.pnone => none
  | PageArg.pint n => some n
  | PageArg.pstr s => pyIntOfStr s

/-- Model of `link_for`. -/
def link_for (nfc fold : String → String) (avail : List (String × String))
    (local_name : String) (page : PageArg) (base_url : String) : String :=
  viewer_url nfc fold avail local_name base_url (pyIntOfPage page)

/-! ### Source deduplication (`build_sources_from_idx`) -/

/-- The raw dedup key `(ch.get("title"), ch.get("page"))`. -/
def srcKey (ch : Chunk) : Option String × Option Int := (ch.title, ch.page)

/-- The resolved-or-fallback local filename used by `build_sources_from_idx`
and `build_context`:
`resolve_local_filename(ch.get("local_name")) or os.path.basename(ch.get("path","doc.pdf"))`. -/
def chunkLocalName (nfc fold : String → String) (avail : List (String × String))
    (ch : Chunk) : String :=
  pyOrStr (resolve_local_filename nfc fold avail ch.local_name)
    (osBasename (ch.path.getD "doc.pdf"))

/-- The page coercion `int(ch.get("page") or 1)` (the surrounding
`try/except` never fires once the page is an int-or-absent value). -/
def pageCoerce : Option Int → Int
  | none => 1
  | some n => if n = 0 then 1 else n

/-- Python `a or b` chaining for strings: `a` if non-empty else `b`. -/
def orDefault (a b : String) : String := if a = "" then b else a

/-- One emitted source entry `{title, page, url}`. -/
structure SourceEntry where
  title : String
  page : Int
  url : String
deriving DecidableEq, Repr

/-- The entry appended for one chunk by `build_sources_from_idx`. -/
def mkSource (nfc fold : String → String) (avail : List (String × String))
    (base_url : String) (ch : Chunk) : SourceEntry :=
  let localName := chunkLocalName nfc fold avail ch
  let pageNum := pageCoerce ch.page
  { title := orDefault (pyOrStr ch.title localName) "Документ"
    page := pageNum
    url := link_for nfc fold avail localName (PageArg.pint pageNum) base_url }

/-- The emission loop of `build_sources_from_idx`: iterate hits in ranked
order, skip seen `(title, page)` keys, and break right after the appended
entry makes `len(res) >= limit`.  `c` is `len(res)` so far. -/
def buildIdx (chunks : List Chunk) (limit : Int) :
    Int → List Nat → List (Option String × Option Int) → List Nat
  | _, [], _ => []
  | c, i :: rest, seen =>
      let key := srcKey (chunks.getD i default)
      if key ∈ seen then buildIdx chunks limit c rest seen
      else i :: (if limit ≤ c + 1 then [] else buildIdx chunks limit (c + 1) rest (key :: seen))

/-- Model of `build_sources_from_idx`. -/
def build_sources_from_idx (nfc fold : String → String)
    (avail : List (String × String)) (chunks : List Chunk) (idx : List Nat)
    (base_url : String) (limit : Int) : List SourceEntry :=
  (buildIdx chunks limit 0 idx []).map (fun i => mkSource nfc fold avail base_url (chunks.getD i default))

/-! ### The pipeline tail of `llm_answer`

Everything up to the completion call (retrieval, context assembly, prompt
hints) only influences the raw model reply and the ranked index list, so
the model takes those as inputs: `idx` is the (already `BEST_K`-truncated)
ranked hit list and `raw` is `out[0].text`.  The `Option` result models a
raised exception: `data.get(...)` on a non-dict parse raises
`AttributeError` in the source. -/

/-- The "no data in context" sentinel string compared against the coerced
answer. -/
def NO_DATA : String := "Нет данных в предоставленном контексте."

/-- The Python list-of-dicts value assigned to `data["sources"]`. -/
def sourcesJson (entries : List SourceEntry) : Json :=
  Json.arr (entries.map (fun e =>
    Json.obj [("title", Json.str e.title), ("page", Json.num e.page), ("url", Json.str e.url)]))

/-- Model of `llm_answer` from the parse of the raw reply onward
(source lines 230–239). -/
def llm_answer (nfc fold : String → String) (avail : List (String × String))
    (chunks : List Chunk) (idx : List Nat) (base_url : String) (raw : String) :
    Option Json :=
  match safe_json_loads raw with
  | Json.obj kvs =>
      let answer_text := coerce_answer_text (getK kvs "answer")
      let kvs1 :=
        if answer_text = NO_DATA then
          objInsert (objInsert kvs "sources" (Json.arr [])) "status" (Json.str "not_found")
        else if jsonTruthy (getK kvs "sources") = false then
          objInsert kvs "sources"
            (sourcesJson (build_sources_from_idx nfc fold avail chunks idx base_url 3))
        else kvs
      let kvs2 :=
        if (getK kvs1 "status").isNone then
          objInsert kvs1 "status"
            (Json.str (if jsonTruthy (getK kvs "answer") then "answerable" else "not_found"))
        else kvs1
      some (Json.obj kvs2)
  | _ => none

/-! ### A stable insertion sort

Used (a) as a concrete witness for the `np.argsort` sorting contract and
(b) as the model of Python's stable `sorted` in the harvester and of
`sorted(selected)` in the page expansion. -/

/-- Insert `a` before the first element `b` with `le a b`. -/
def insertLe (le : α → α → Bool) (a : α) : List α → List α
  | [] => [a]
  | b :: bs => if le a b then a :: b :: bs else b :: insertLe le a bs

/-- Insertion sort; stable for a total preorder `le` (equal elements keep
their original relative order), like Python's `sorted`. -/
def sortBy (le : α → α → Bool) : List α → List α
  | [] => []
  | a :: rest => insertLe le a (sortBy le rest)

/-! ### Similarity search (`retrieve_local`) -/

/-- Distance of row `i` in the cosine-distance row `d` (reals modelled as
integers: every claim about this function is purely order/ring
theoretic). -/
def distAt (d : List Int) (i : Nat) : Int := d.getD i 0

/-- The documented contract of `np.argsort(d)` (any `kind`): it returns
some permutation of all row indices along which the distances are
non-decreasing.  Tie order is NOT part of the contract for the default
`kind='quicksort'`. -/
def ArgsortSpec (f : List Int → List Nat) : Prop :=
  ∀ d : List Int, (f d).Perm (List.range d.length) ∧
    List.Pairwise (fun i j => distAt d i ≤ distAt d j) (f d)

/-- A sorting function satisfying `ArgsortSpec` that orders equal
distances by DESCENDING original index — a legal unstable argsort. -/
def unstableArgsort (d : List Int) : List Nat :=
  sortBy (fun i j => decide (distAt d i < distAt d j ∨ (distAt d i = distAt d j ∧ j ≤ i)))
    (List.range d.length)

/-- Model of `retrieve_local`: the embedding call and `cdist` are external
collaborators, so the input is the cosine-distance row `d` and the argsort
implementation; the result is `(idx, sims)` with `sims = 1 - d[idx]`. -/
def retrieve_local (argsortFn : List Int → List Nat) (d : List Int) (k : Nat) :
    List Nat × List Int :=
  let idx := (argsortFn d).take k
  (idx, idx.map (fun i => 1 - distAt d i))

/-! ### Page-window expansion (`_expand_by_pages`) -/

/-- The effective page `int(ch.get("page") or 0)` of a chunk. -/
def effPage (ch : Chunk) : Int := ch.page.getD 0

/-- The keys of the `by_doc` grouping: the `doc_id`s of the seed hits. -/
def seedDocs (chunks : List Chunk) (idx : List Nat) : List (Option String) :=
  idx.map (fun i => (chunks.getD i default).doc_id)

/-- The center pages of document `d` among the seed hits: truthy pages of
seed chunks whose `doc_id` is `d` (`int(p) for p in pages if p`). -/
def seedCenters (chunks : List Chunk) (idx : List Nat) (d : Option String) : List Int :=
  idx.filterMap (fun i =>
    let ch := chunks.getD i default
    match ch.page with
    | some p => if ch.doc_id = d ∧ p ≠ 0 then some p else none
    | none => none)

/-- Whether corpus position `j` is added by the expansion loops: its
`doc_id` is a seed document and its effective page lies in the wanted
window `[c - W, c + W]` of some center `c` of that document. -/
def expandCond (chunks : List Chunk) (W : Int) (idx : List Nat) (j : Nat) : Bool :=
  let ch := chunks.getD j default
  decide (ch.doc_id ∈ seedDocs chunks idx) &&
    (seedCenters chunks idx ch.doc_id).any (fun c =>
      decide (c - W ≤ effPage ch ∧ effPage ch ≤ c + W))

/-- Model of `_expand_by_pages` (`W` is the configured `PAGE_WINDOW`):
`sorted(set(idx) ∪ {j | added})`. -/
def expand_by_pages (chunks : List Chunk) (W : Int) (idx : List Nat) : List Nat :=
  sortBy (fun a b => decide (a ≤ b))
    ((idx ++ (List.range chunks.length).filter (expandCond chunks W idx)).dedup)

/-! ### The list harvester (`harvest_items_from_chunks`) -/

/-- Deterministic match of `^\s*(\d+)[\).\s]\s+(.*)$` (flags=re.M) at a
line-start position: leading whitespace (which, like the regex's `\s*`,
may span line breaks), a digit run, one separator from `[\).\s]`, at
least one more whitespace character, then the rest of the line as group 2.
Returns the number, the group-2 text and the remainder after the match. -/
def matchBullet (cs : List Char) : Option (Nat × String × List Char) :=
  let s1 := dropSpaces cs
  let ds := s1.takeWhile pyDigit
  if ds.isEmpty then none
  else
    match s1.drop ds.length with
    | sep :: s3 =>
        if sep = ')' || sep = '.' || pySpace sep then
          let ws := s3.takeWhile pySpace
          if ws.isEmpty then none
          else
            let s4 := s3.drop ws.length
            let body := s4.takeWhile (· ≠ '\n')
            some (digitsToNat ds, String.mk body, s4.drop body.length)
        else none
    | [] => none

/-- The `finditer` loop of the bullet regex: try the pattern at every
line-start position, resume after each match. -/
def scanBullets : Nat → Bool → List Char → List (Nat × String)
  | 0, _, _ => []
  | _ + 1, _, [] => []
  | fuel + 1, atLS, c :: rest =>
      if atLS then
        match matchBullet (c :: rest) with
        | some (n, body, rest2) => (n, body) :: scanBullets fuel false rest2
        | none => scanBullets fuel (c = '\n') rest
      else scanBullets fuel (c = '\n') rest

/-- The substitution `re.sub(r"\s*\.\s*$", "", body)` on a newline-free
body: remove one trailing period together with the whitespace around it;
anything else is left untouched. -/
def stripTrailingDot (s : String) : String :=
  match s.data.reverse.dropWhile pySpace with
  | '.' :: r2 => String.mk ((r2.dropWhile pySpace).reverse)
  | _ => s

/-- Numbered-list items of one chunk text:
`(int(m.group(1)), re.sub(r"\s*\.\s*$", "", m.group(2).strip()))`. -/
def bulletItems (t : String) : List (Nat × String) :=
  (scanBullets t.data.length true t.data).map (fun p => (p.1, stripTrailingDot (pyStrip p.2)))

/-- One line of a `[ТАБЛИЦА]` chunk: strip it, skip empties and marker
lines, then match `^(\d+)\s+(.+)$`. -/
def tableLineItem (line : String) : Option (Nat × String) :=
  let l := pyStripList line.data
  if l.isEmpty then none
  else if List.isPrefixOf "[ТАБЛИЦА]".data l then none
  else
    let ds := l.takeWhile pyDigit
    if ds.isEmpty then none
    else
      let r := (l.drop ds.length)
      let ws := r.takeWhile pySpace
      if ws.isEmpty then none
      else
        let body := r.drop ws.length
        if body.isEmpty then none
        else some (digitsToNat ds, pyStrip (String.mk body))

/-- Table items of one chunk text (only for texts starting with the
`[ТАБЛИЦА]` marker); note the source appends these verbatim, without the
trailing-period substitution. -/
def tableItems (t : String) : List (Nat × String) :=
  if List.isPrefixOf "[ТАБЛИЦА]".data t.data then
    (pySplitlines t).filterMap tableLineItem
  else []

/-- All `(number, text)` items extracted from one chunk text. -/
def chunkItems (t : String) : List (Nat × String) :=
  bulletItems t ++ tableItems t

/-- All items extracted across the given chunk indices, in order. -/
def harvestItems (chunks : List Chunk) (idxs : List Nat) : List (Nat × String) :=
  idxs.flatMap (fun i => chunkItems (chunks.getD i default).text)

/-- The sort key `lambda x: (x[0], len(x[1]))` as a boolean preorder. -/
def itemLe (a b : Nat × String) : Bool :=
  decide (a.1 < b.1 ∨ (a.1 = b.1 ∧ a.2.length ≤ b.2.length))

/-- The dedup loop: keep the first pair (after sorting) of each number. -/
def dedupByNum : List (Nat × String) → List Nat → List (Nat × String)
  | [], _ => []
  | (n, t) :: rest, seen =>
      if n ∈ seen then dedupByNum rest seen
      else (n, t) :: dedupByNum rest (n :: seen)

/-- The rendering `f"{num}. {text}"`. -/
def renderItem (p : Nat × String) : String := Nat.repr p.1 ++ ". " ++ p.2

/-- The kept `(number, text)` pairs of the harvest. -/
def harvestPairs (chunks : List Chunk) (idxs : List Nat) : List (Nat × String) :=
  dedupByNum (sortBy itemLe (harvestItems chunks idxs)) []

/-- Model of `harvest_items_from_chunks`. -/
def harvest_items_from_chunks (chunks : List Chunk) (idxs : List Nat) : List String :=
  if (harvestItems chunks idxs).isEmpty then []
  else (harvestPairs chunks idxs).map renderItem

/-! ### The score-hint extractor (`extract_abcd_scores`) -/

/-- The four label character classes (Latin and Cyrillic homoglyphs). -/
def labA : List Char := ['A', 'a', 'А', 'а']

/-- Label class for B. -/
def labB : List Char := ['B', 'b', 'В', 'в']

/-- Label class for C. -/
def labC : List Char := ['C', 'c', 'С', 'с']

/-- Label class for D. -/
def labD : List Char := ['D', 'd', 'Д', 'д']

/-- The separator class `[:=\-–—]` (same set as the combined pattern's
mandatory `[-–—=:]`). -/
def sepChs : List Char := [':', '=', '-', '–', '—']

/-- Deterministic match of `<label>\s*[:=\-–—]?\s*(\d+)` at the head of
`cs` (the separator class and `\d` are disjoint from `\s`, so greedy
backtracking collapses to these two cases). -/
def matchLabelAt (labels : List Char) (cs : List Char) : Option Nat :=
  match cs with
  | [] => none
  | c :: rest =>
      if c ∈ labels then
        let r1 := dropSpaces rest
        match r1 with
        | s :: r2 =>
            if s ∈ sepChs then
              let ds := (dropSpaces r2).takeWhile pyDigit
              if ds.isEmpty then none else some (digitsToNat ds)
            else
              let ds := r1.takeWhile pyDigit
              if ds.isEmpty then none else some (digitsToNat ds)
        | [] => none
      else none

/-- `re.search` for one label pattern: first position where it matches. -/
def searchLabel (labels : List Char) : List Char → Option Nat
  | [] => none
  | c :: rest =>
      match matchLabelAt labels (c :: rest) with
      | some n => some n
      | none => searchLabel labels rest

/-- Consume `\s*,?\s*` then one character of class `next` (a step of the
combined pattern). -/
def stepLabel (next : List Char) (cs : List Char) : Option (List Char) :=
  match dropSpaces cs with
  | [] => none
  | c :: r2 =>
      if c ∈ next then some r2
      else if c = ',' then
        match dropSpaces r2 with
        | c2 :: r3 => if c2 ∈ next then some r3 else none
        | [] => none
      else none

/-- Deterministic match of the combined pattern
`[AaАа]\s*,?\s*[BbВв]\s*,?\s*[CcСс]\s*[-–—=:]\s*(\d+)` at the head. -/
def matchCombinedAt (cs : List Char) : Option Nat :=
  match cs with
  | [] => none
  | c :: rest =>
      if c ∈ labA then
        match stepLabel labB rest with
        | none => none
        | some r1 =>
            match stepLabel labC r1 with
            | none => none
            | some r2 =>
                match dropSpaces r2 with
                | s :: r4 =>
                    if s ∈ sepChs then
                      let ds := (dropSpaces r4).takeWhile pyDigit
                      if ds.isEmpty then none else some (digitsToNat ds)
                    else none
                | [] => none
      else none

/-- `re.search` for the combined pattern. -/
def searchCombined : List Char → Option Nat
  | [] => none
  | c :: rest =>
      match matchCombinedAt (c :: rest) with
      | some n => some n
      | none => searchCombined rest

/-- The `found` dict (keys "A".."D" with integer values). -/
structure Found where
  A : Option Nat
  B : Option Nat
  C : Option Nat
  D : Option Nat
deriving DecidableEq, Repr

/-- The preprocessed question text
`q.replace(",", " ").replace(";", " ")`. -/
def cleanQ (q : String) : String := replaceChar ';' ' ' (replaceChar ',' ' ' q)

/-- The individual-label pass of `extract_abcd_scores`. -/
def foundIndiv (q : String) : Found :=
  let t := (cleanQ q).data
  ⟨searchLabel labA t, searchLabel labB t, searchLabel labC t, searchLabel labD t⟩

/-- The gate `all(k in found for k in ("A","B","C"))`. -/
def allABC (f : Found) : Bool := f.A.isSome && f.B.isSome && f.C.isSome

/-- Number of labels found individually. -/
def countFound (f : Found) : Nat :=
  (if f.A.isSome then 1 else 0) + (if f.B.isSome then 1 else 0) +
    (if f.C.isSome then 1 else 0) + (if f.D.isSome then 1 else 0)

/-- The `found.setdefault(k, val)` loop over `("A","B","C")`. -/
def setdefaultABC (f : Found) (v : Nat) : Found :=
  ⟨some (f.A.getD v), some (f.B.getD v), some (f.C.getD v), f.D⟩

/-- The hint parts `f"{k}={v}"` in sorted key order. -/
def hintParts (f : Found) : List String :=
  (match f.A with | some v => ["A=" ++ Nat.repr v] | none => []) ++
  (match f.B with | some v => ["B=" ++ Nat.repr v] | none => []) ++
  (match f.C with | some v => ["C=" ++ Nat.repr v] | none => []) ++
  (match f.D with | some v => ["D=" ++ Nat.repr v] | none => [])

/-- The sum of the found values. -/
def foundTotal (f : Found) : Nat :=
  f.A.getD 0 + f.B.getD 0 + f.C.getD 0 + f.D.getD 0

/-- Model of `extract_abcd_scores`. -/
def extract_abcd_scores (q : String) : Found × String :=
  let f0 := foundIndiv q
  let f :=
    if allABC f0 then f0
    else
      match searchCombined (cleanQ q).data with
      | some v => setdefaultABC f0 v
      | none => f0
  let hint :=
    if f = ⟨none, none, none, none⟩ then ""
    else "Подсказка: извлечено из вопроса → " ++ String.intercalate ", " (hintParts f) ++
      "; сумма=" ++ Nat.repr (foundTotal f) ++ "."
  (f, hint)

/-- First-occurrence-by-`(title, page)`-key subsequence of a hit list
(the limit-free core of `buildIdx`, used to state what the emission loop
computes). -/
def firstOccIdx (chunks : List Chunk) :
    List Nat → List (Option String × Option Int) → List Nat
  | [], _ => []
  | i :: rest, seen =>
      let key := srcKey (chunks.getD i default)
      if key ∈ seen then firstOccIdx chunks rest seen
      else i :: firstOccIdx chunks rest (key :: seen)

/-! ## Theorems

General-purpose lemmas about the helper structures first, then one named
theorem per claim (with witnesses and counterexamples). -/

/-! ### Lemmas: dict operations -/

theorem getK_objInsert_self : ∀ (kvs : List (String × Json)) (k : String) (v : Json),
    getK (objInsert kvs k v) k = some v
  | [], k, v => by simp [objInsert, getK]
  | (k0, v0) :: rest, k, v => by
      unfold objInsert
      by_cases h : k0 = k
      · rw [if_pos h]; simp [getK, h]
      · rw [if_neg h]; simp only [getK, if_neg h]; exact getK_objInsert_self rest k v

theorem getK_objInsert_ne {k' k : String} (hne : k' ≠ k) :
    ∀ (kvs : List (String × Json)) (v : Json),
      getK (objInsert kvs k v) k' = getK kvs k'
  | [], v => by
      simp only [objInsert, getK]
      rw [if_neg (fun hh : k = k' => hne hh.symm)]
  | (k0, v0) :: rest, v => by
      unfold objInsert
      by_cases h : k0 = k
      · rw [if_pos h]
        subst h
        simp only [getK]
        rw [if_neg (fun hh : k0 = k' => hne hh.symm), if_neg (fun hh : k0 = k' => hne hh.symm)]
      · rw [if_neg h]
        simp only [getK]
        by_cases h2 : k0 = k'
        · rw [if_pos h2, if_pos h2]
        · rw [if_neg h2, if_neg h2]
          exact getK_objInsert_ne hne rest v

/-! ### Lemmas: insertion sort -/

theorem insertLe_perm (le : α → α → Bool) (a : α) :
    ∀ l : List α, (insertLe le a l).Perm (a :: l)
  | [] => List.Perm.refl _
  | b :: bs => by
      unfold insertLe
      by_cases h : le a b = true
      · rw [if_pos h]
      · rw [if_neg h]
        exact ((insertLe_perm le a bs).cons b).trans (List.Perm.swap a b bs)

theorem sortBy_perm (le : α → α → Bool) : ∀ l : List α, (sortBy le l).Perm l
  | [] => List.Perm.refl _
  | a :: rest => (insertLe_perm le a _).trans ((sortBy_perm le rest).cons a)

theorem pairwise_insertLe (le : α → α → Bool)
    (htot : ∀ x y, le x y = true ∨ le y x = true)
    (htrans : ∀ x y z, le x y = true → le y z = true → le x z = true) (a : α) :
    ∀ l : List α, l.Pairwise (fun x y => le x y = true) →
      (insertLe le a l).Pairwise (fun x y => le x y = true)
  | [], _ => by simp [insertLe]
  | b :: bs, h => by
      unfold insertLe
      rcases List.pairwise_cons.mp h with ⟨hb, hbs⟩
      by_cases hab : le a b = true
      · rw [if_pos hab]
        refine List.pairwise_cons.mpr ⟨?_, h⟩
        intro x hx
        rcases List.mem_cons.mp hx with rfl | hx2
        · exact hab
        · exact htrans a b x hab (hb x hx2)
      · rw [if_neg hab]
        refine List.pairwise_cons.mpr ⟨?_, pairwise_insertLe le htot htrans a bs hbs⟩
        intro x hx
        rcases List.mem_cons.mp ((insertLe_perm le a bs).mem_iff.mp hx) with rfl | hx2
        · rcases htot x b with h1 | h1
          · exact absurd h1 hab
          · exact h1
        · exact hb x hx2

theorem sortBy_pairwise (le : α → α → Bool)
    (htot : ∀ x y, le x y = true ∨ le y x = true)
    (htrans : ∀ x y z, le x y = true → le y z = true → le x z = true) :
    ∀ l : List α, (sortBy le l).Pairwise (fun x y => le x y = true)
  | [] => List.Pairwise.nil
  | a :: rest => pairwise_insertLe le htot htrans a _ (sortBy_pairwise le htot htrans rest)

/-! ### Lemmas: the harvest dedup loop -/

theorem dedupByNum_sublist : ∀ (l : List (Nat × String)) (seen : List Nat),
    (dedupByNum l seen).Sublist l
  | [], _ => List.nil_sublist _
  | (n, t) :: rest, seen => by
      unfold dedupByNum
      by_cases h : n ∈ seen
      · rw [if_pos h]; exact (dedupByNum_sublist rest seen).cons _
      · rw [if_neg h]; exact (dedupByNum_sublist rest (n :: seen)).cons₂ _

theorem dedupByNum_notseen : ∀ (l : List (Nat × String)) (seen : List Nat),
    ∀ p ∈ dedupByNum l seen, p.1 ∉ seen
  | [], _, p, hp => by simp [dedupByNum] at hp
  | (n, t) :: rest, seen, p, hp => by
      unfold dedupByNum at hp
      by_cases h : n ∈ seen
      · rw [if_pos h] at hp; exact dedupByNum_notseen rest seen p hp
      · rw [if_neg h] at hp
        rcases List.mem_cons.mp hp with rfl | hp2
        · exact h
        · intro hmem
          exact dedupByNum_notseen rest (n :: seen) p hp2 (List.mem_cons_of_mem n hmem)

theorem dedupByNum_pairwise_ne : ∀ (l : List (Nat × String)) (seen : List Nat),
    (dedupByNum l seen).Pairwise (fun p q => p.1 ≠ q.1)
  | [], _ => List.Pairwise.nil
  | (n, t) :: rest, seen => by
      unfold dedupByNum
      by_cases h : n ∈ seen
      · rw [if_pos h]; exact dedupByNum_pairwise_ne rest seen
      · rw [if_neg h]
        refine List.pairwise_cons.mpr ⟨?_, dedupByNum_pairwise_ne rest (n :: seen)⟩
        intro q hq heq
        have hqmem : q.1 ∈ n :: seen := by rw [← heq]; exact List.mem_cons_self n seen
        exact dedupByNum_notseen rest (n :: seen) q hq hqmem

theorem dedupByNum_minlen : ∀ (l : List (Nat × String)) (seen : List Nat),
    l.Pairwise (fun x y => itemLe x y = true) →
    ∀ p ∈ dedupByNum l seen, ∀ q ∈ l, q.1 = p.1 → p.2.length ≤ q.2.length
  | [], _, _, p, hp => by simp [dedupByNum] at hp
  | (n, t) :: rest, seen, hsort, p, hp => by
      intro q hq hnum
      rcases List.pairwise_cons.mp hsort with ⟨hhead, htail⟩
      unfold dedupByNum at hp
      by_cases h : n ∈ seen
      · rw [if_pos h] at hp
        rcases List.mem_cons.mp hq with rfl | hq2
        · exact absurd (hnum ▸ h) (dedupByNum_notseen rest seen p hp)
        · exact dedupByNum_minlen rest seen htail p hp q hq2 hnum
      · rw [if_neg h] at hp
        rcases List.mem_cons.mp hp with rfl | hp2
        · rcases List.mem_cons.mp hq with rfl | hq2
          · exact le_refl _
          · have h1 := hhead q hq2
            simp only [itemLe, decide_eq_true_eq] at h1
            rcases h1 with hlt | ⟨heq, hle⟩
            · exact absurd (hnum ▸ hlt) (lt_irrefl _)
            · exact hle
        · rcases List.mem_cons.mp hq with rfl | hq2
          · have hpmem : p.1 ∈ n :: seen := by
              rw [← hnum]; exact List.mem_cons_self n seen
            exact absurd hpmem (dedupByNum_notseen rest (n :: seen) p hp2)
          · exact dedupByNum_minlen rest (_ :: seen) htail p hp2 q hq2 hnum

theorem dedupByNum_covers : ∀ (l : List (Nat × String)) (seen : List Nat),
    ∀ q ∈ l, q.1 ∈ seen ∨ ∃ p ∈ dedupByNum l seen, p.1 = q.1
  | [], _, q, hq => absurd hq (List.not_mem_nil q)
  | (n, t) :: rest, seen, q, hq => by
      unfold dedupByNum
      by_cases h : n ∈ seen
      · rw [if_pos h]
        rcases List.mem_cons.mp hq with rfl | hq2
        · exact Or.inl h
        · exact dedupByNum_covers rest seen q hq2
      · rw [if_neg h]
        rcases List.mem_cons.mp hq with rfl | hq2
        · exact Or.inr ⟨(n, t), List.mem_cons_self _ _, rfl⟩
        · rcases dedupByNum_covers rest (n :: seen) q hq2 with hs | ⟨p, hp, he⟩
          · rcases List.mem_cons.mp hs with heq | hseen
            · exact Or.inr ⟨(n, t), List.mem_cons_self _ _, heq.symm⟩
            · exact Or.inl hseen
          · exact Or.inr ⟨p, List.mem_cons_of_mem _ hp, he⟩

/-! ### Claim C1 — tolerant parse fallback -/

/-- C1 (corrected): `_safe_json_loads` never raises (the model is total by
construction, mirroring the catch-all `except` chain) and, when BOTH the
strict parse and the repaired re-parse fail, returns exactly the mapping
with `status="error"`, `answer` = the first 800 characters of the repaired
text and `sources=[]`.  When either parse succeeds, however, the parsed
value is returned unchanged — so the result need not contain the three
required fields (see the counterexample on `"{}"`). -/
theorem c1_safe_json_loads_spec (raw : String) :
    (∀ v, json_loads raw = some v → safe_json_loads raw = v) ∧
    (json_loads raw = none → ∀ v,
      json_loads (fix_json_common_issues raw) = some v → safe_json_loads raw = v) ∧
    (json_loads raw = none → json_loads (fix_json_common_issues raw) = none →
      safe_json_loads raw =
        Json.obj [("status", Json.str "error"),
          ("answer", Json.str (String.mk ((fix_json_common_issues raw).data.take 800))),
          ("sources", Json.arr [])]) := by
  refine ⟨?_, ?_, ?_⟩
  · intro v hv; simp only [safe_json_loads, hv]
  · intro h1 v hv; simp only [safe_json_loads, h1, hv]
  · intro h1 h2; simp only [safe_json_loads, h1, h2]

/-- C1 counterexample: `"{}"` parses strictly, so `_safe_json_loads`
returns the empty mapping — which contains none of the three required
fields `answer`, `sources`, `status`. -/
theorem c1_counterexample :
    safe_json_loads "\x7b\x7d" = Json.obj [] ∧
    getK [] "answer" = none ∧ getK [] "sources" = none ∧ getK [] "status" = none :=
  ⟨rfl, rfl, rfl, rfl⟩

/-- C1 witness: on `"garbage{{{"` both parses fail and the fallback
mapping is produced (its `answer` is the full repaired text, which is
shorter than 800 characters). -/
theorem c1_witness :
    json_loads "garbage\x7b\x7b\x7b" = none ∧
    json_loads (fix_json_common_issues "garbage\x7b\x7b\x7b") = none ∧
    safe_json_loads "garbage\x7b\x7b\x7b" =
      Json.obj [("status", Json.str "error"),
        ("answer", Json.str "garbage\x7b\x7b\x7b"),
        ("sources", Json.arr [])] := by
  refine ⟨rfl, rfl, ?_⟩
  exact ((c1_safe_json_loads_spec "garbage\x7b\x7b\x7b").2.2 rfl rfl).trans (by rfl)

/-! ### Claim C10 — resolver on missing/empty names -/

/-- C10 (confirmed): `resolve_local_filename` treats a missing (`None`) or
empty requested name as not-found: it returns `None` for every
normalisation function, casefold function and filename index — in
particular without consulting the index and without raising. -/
theorem c10_resolve_falsy_name (nfc fold : String → String)
    (avail : List (String × String)) :
    resolve_local_filename nfc fold avail none = none ∧
    resolve_local_filename nfc fold avail (some "") = none :=
  ⟨rfl, by simp [resolve_local_filename]⟩

/-! ### Claim C7 — the page query parameter -/

/-- C7 (corrected): the constructed viewer URL carries a `page` query
parameter exactly when the page value converts to a NONZERO integer —
negative integers also get the parameter (see the counterexample), so
"positive" in the claim is wrong; `None`, zero and non-convertible values
omit the parameter, and `link_for` never fails on the page argument (the
conversion failure is caught and the model is total). -/
theorem c7_link_for_spec (nfc fold : String → String)
    (avail : List (String × String)) (local_name : String) (page : PageArg)
    (base_url : String) :
    (∀ n : Int, pyIntOfPage page = some n → n ≠ 0 →
      link_for nfc fold avail local_name page base_url =
        viewer_url nfc fold avail local_name base_url none ++ ("?page=" ++ toString n)) ∧
    (pyIntOfPage page = none →
      link_for nfc fold avail local_name page base_url =
        viewer_url nfc fold avail local_name base_url none) ∧
    (pyIntOfPage page = some 0 →
      link_for nfc fold avail local_name page base_url =
        viewer_url nfc fold avail local_name base_url none) := by
  refine ⟨?_, ?_, ?_⟩
  · intro n hn hnz
    simp only [link_for, viewer_url, hn, if_neg hnz, String.append_empty]
  · intro hn
    simp only [link_for, viewer_url, hn]
  · intro hn
    simp [link_for, viewer_url, hn]

/-- C7 counterexample: for the valid but negative page `-3` the claim
says the parameter is omitted (not a positive integer), but the code
appends `?page=-3`. -/
theorem c7_counterexample :
    link_for id id [] "f.pdf" (PageArg.pint (-3)) "http://e" =
      "http://e/viewer/f.pdf?page=-3" ∧
    ¬ (0 : Int) < -3 :=
  ⟨rfl, by decide⟩

/-- C7 witness: a parsable string page `"7"` gets the parameter; an
unparsable page `"abc"` omits it. -/
theorem c7_witness :
    pyIntOfPage (PageArg.pstr "7") = some 7 ∧
    link_for id id [] "f.pdf" (PageArg.pstr "7") "http://e" =
      viewer_url id id [] "f.pdf" "http://e" none ++ ("?page=" ++ toString (7 : Int)) ∧
    pyIntOfPage (PageArg.pstr "abc") = none ∧
    link_for id id [] "f.pdf" (PageArg.pstr "abc") "http://e" =
      viewer_url id id [] "f.pdf" "http://e" none := by
  refine ⟨rfl, ?_, rfl, ?_⟩
  · exact (c7_link_for_spec id id [] "f.pdf" (PageArg.pstr "7") "http://e").1 7 rfl (by decide)
  · exact (c7_link_for_spec id id [] "f.pdf" (PageArg.pstr "abc") "http://e").2.1 rfl

/-! ### Claim C5 — the score-hint gate -/

/-- C5 (corrected): the combined three-labels-one-value pattern is skipped
exactly when labels A, B and C are ALL found individually (D plays no role
in the gate — "at least three of the four" is wrong, see the
counterexample); when attempted, the combined value is assigned only to
those of A, B, C not already found, individually-found values and D are
never changed. -/
theorem c5_extract_abcd_spec (q : String) :
    ((extract_abcd_scores q).1.D = (foundIndiv q).D) ∧
    (∀ n, (foundIndiv q).A = some n → (extract_abcd_scores q).1.A = some n) ∧
    (∀ n, (foundIndiv q).B = some n → (extract_abcd_scores q).1.B = some n) ∧
    (∀ n, (foundIndiv q).C = some n → (extract_abcd_scores q).1.C = some n) ∧
    (allABC (foundIndiv q) = true → (extract_abcd_scores q).1 = foundIndiv q) ∧
    (allABC (foundIndiv q) = false →
      (searchCombined (cleanQ q).data = none ∧ (extract_abcd_scores q).1 = foundIndiv q) ∨
      (∃ v, searchCombined (cleanQ q).data = some v ∧
        (extract_abcd_scores q).1 = setdefaultABC (foundIndiv q) v)) := by
  by_cases hA : allABC (foundIndiv q) = true
  · have hres : (extract_abcd_scores q).1 = foundIndiv q := by
      simp only [extract_abcd_scores, hA, if_true]
    refine ⟨by rw [hres], fun n hn => by rw [hres]; exact hn,
      fun n hn => by rw [hres]; exact hn, fun n hn => by rw [hres]; exact hn,
      fun _ => hres, fun hf => ?_⟩
    rw [hA] at hf; exact absurd hf (by simp)
  · cases hc : searchCombined (cleanQ q).data with
    | none =>
        have hres : (extract_abcd_scores q).1 = foundIndiv q := by
          simp [extract_abcd_scores, hA, hc]
        exact ⟨by rw [hres], fun n hn => by rw [hres]; exact hn,
          fun n hn => by rw [hres]; exact hn, fun n hn => by rw [hres]; exact hn,
          fun h => absurd h hA, fun _ => Or.inl ⟨rfl, hres⟩⟩
    | some v =>
        have hres : (extract_abcd_scores q).1 = setdefaultABC (foundIndiv q) v := by
          simp [extract_abcd_scores, hA, hc]
        refine ⟨by rw [hres]; rfl, ?_, ?_, ?_, fun h => absurd h hA,
          fun _ => Or.inr ⟨v, rfl, hres⟩⟩
        · intro n hn; rw [hres]; simp [setdefaultABC, hn]
        · intro n hn; rw [hres]; simp [setdefaultABC, hn]
        · intro n hn; rw [hres]; simp [setdefaultABC, hn]

/-- C5 counterexample: on `"A=1 D=2 a b c - 5"` three of the four labels
(A, C, D) are found individually — `countFound` is 3 — yet the combined
pattern is attempted (the gate only checks A, B, C) and assigns B from it,
so the result is NOT the individually-found values. -/
theorem c5_counterexample :
    3 ≤ countFound (foundIndiv "A=1 D=2 a b c - 5") ∧
    (extract_abcd_scores "A=1 D=2 a b c - 5").1 = ⟨some 1, some 5, some 5, some 2⟩ ∧
    (extract_abcd_scores "A=1 D=2 a b c - 5").1 ≠ foundIndiv "A=1 D=2 a b c - 5" :=
  ⟨by decide, by decide, by decide⟩

/-- C5 witness: on the spec's scenario question `"A=3, B=4, C=5"` all of
A, B, C are found individually and the values are used directly. -/
theorem c5_witness :
    allABC (foundIndiv "A=3, B=4, C=5") = true ∧
    (extract_abcd_scores "A=3, B=4, C=5").1 = foundIndiv "A=3, B=4, C=5" :=
  ⟨by decide, (c5_extract_abcd_spec "A=3, B=4, C=5").2.2.2.2.1 (by decide)⟩

/-! ### Claims C6 and C9 — the pipeline tail -/

/-- C6 (confirmed): whenever the parse of the model reply yields a mapping
and the coerced answer text equals the "no data in context" sentinel
exactly, the structured answer returned by `llm_answer` has `sources`
forced to the empty list and `status` forced to `"not_found"`, regardless
of what the parsed mapping contained. -/
theorem c6_llm_answer_sentinel (nfc fold : String → String)
    (avail : List (String × String)) (chunks : List Chunk) (idx : List Nat)
    (base_url raw : String) (kvs : List (String × Json))
    (hparse : safe_json_loads raw = Json.obj kvs)
    (hans : coerce_answer_text (getK kvs "answer") = NO_DATA) :
    ∃ out, llm_answer nfc fold avail chunks idx base_url raw = some (Json.obj out) ∧
      getK out "sources" = some (Json.arr []) ∧
      getK out "status" = some (Json.str "not_found") := by
  have hs1 : getK (objInsert (objInsert kvs "sources" (Json.arr [])) "status"
      (Json.str "not_found")) "status" = some (Json.str "not_found") :=
    getK_objInsert_self _ _ _
  refine ⟨objInsert (objInsert kvs "sources" (Json.arr [])) "status" (Json.str "not_found"),
    ?_, ?_, hs1⟩
  · simp [llm_answer, hparse, hans, hs1]
  · rw [getK_objInsert_ne (by decide), getK_objInsert_self]

/-- C6 witness: a reply whose answer is exactly the sentinel but which
carries a non-empty `sources` list and `status="answerable"` still comes
back with empty sources and `status="not_found"`. -/
theorem c6_witness :
    ∃ out, llm_answer id id [] [] [] "http://e"
        "\x7b\"answer\": \"Нет данных в предоставленном контексте.\", \"sources\": [\x7b\"title\": \"x\"\x7d], \"status\": \"answerable\"\x7d" =
        some (Json.obj out) ∧
      getK out "sources" = some (Json.arr []) ∧
      getK out "status" = some (Json.str "not_found") :=
  c6_llm_answer_sentinel id id [] [] [] "http://e" _
    [("answer", Json.str NO_DATA),
     ("sources", Json.arr [Json.obj [("title", Json.str "x")]]),
     ("status", Json.str "answerable")] rfl rfl

/-- The status key after the final `if "status" not in data` step: either
it was just set to the derived value `X`, or it is the unchanged status of
`kvs1`. -/
theorem statusResolve (kvs1 : List (String × Json)) (X : String) :
    ∃ v, getK (if (getK kvs1 "status").isNone
        then objInsert kvs1 "status" (Json.str X) else kvs1) "status" = some v ∧
      (v = Json.str X ∨ getK kvs1 "status" = some v) := by
  cases hst : getK kvs1 "status" with
  | none =>
      refine ⟨Json.str X, ?_, Or.inl rfl⟩
      simp [hst, getK_objInsert_self]
  | some v =>
      refine ⟨v, ?_, Or.inr rfl⟩
      simp [hst]

/-- C9 (corrected): every structured answer returned by `llm_answer`
does contain a `status` field, and its value is one of `answerable`,
`not_found`, `error` whenever the parsed reply did not itself carry a
`status` key (and always on the sentinel path) — but a model-supplied
status value is passed through unchanged, so the field is NOT restricted
to the three canonical values for every raw reply (see the
counterexample). -/
theorem c9_llm_answer_status (nfc fold : String → String)
    (avail : List (String × String)) (chunks : List Chunk) (idx : List Nat)
    (base_url raw : String) (out : Json)
    (h : llm_answer nfc fold avail chunks idx base_url raw = some out) :
    ∃ kvs2 v, out = Json.obj kvs2 ∧ getK kvs2 "status" = some v ∧
      (v = Json.str "answerable" ∨ v = Json.str "not_found" ∨ v = Json.str "error" ∨
        ∃ pk, safe_json_loads raw = Json.obj pk ∧ getK pk "status" = some v) := by
  unfold llm_answer at h
  cases hp : safe_json_loads raw with
  | null => rw [hp] at h; exact absurd h (by simp)
  | bool b => rw [hp] at h; exact absurd h (by simp)
  | num n => rw [hp] at h; exact absurd h (by simp)
  | fnum t => rw [hp] at h; exact absurd h (by simp)
  | str s => rw [hp] at h; exact absurd h (by simp)
  | arr xs => rw [hp] at h; exact absurd h (by simp)
  | obj kvs =>
      rw [hp] at h
      simp only [] at h
      by_cases hsent : coerce_answer_text (getK kvs "answer") = NO_DATA
      · rw [if_pos hsent] at h
        have hs1 : getK (objInsert (objInsert kvs "sources" (Json.arr [])) "status"
            (Json.str "not_found")) "status" = some (Json.str "not_found") :=
          getK_objInsert_self _ _ _
        rw [hs1] at h
        simp only [Option.isNone_some, Bool.false_eq_true, if_false] at h
        exact ⟨_, Json.str "not_found", (Option.some.inj h).symm, hs1,
          Or.inr (Or.inl rfl)⟩
      · rw [if_neg hsent] at h
        by_cases hsrc : jsonTruthy (getK kvs "sources") = false
        · rw [if_pos hsrc] at h
          have hstat1 : getK (objInsert kvs "sources"
              (sourcesJson (build_sources_from_idx nfc fold avail chunks idx base_url 3)))
              "status" = getK kvs "status" :=
            getK_objInsert_ne (by decide) _ _
          obtain ⟨v, hv, hvor⟩ := statusResolve
            (objInsert kvs "sources"
              (sourcesJson (build_sources_from_idx nfc fold avail chunks idx base_url 3)))
            (if jsonTruthy (getK kvs "answer") then "answerable" else "not_found")
          refine ⟨_, v, (Option.some.inj h).symm, hv, ?_⟩
          rcases hvor with rfl | hvk
          · by_cases hansT : jsonTruthy (getK kvs "answer") = true
            · exact Or.inl (by rw [if_pos hansT])
            · exact Or.inr (Or.inl (by rw [if_neg hansT]))
          · exact Or.inr (Or.inr (Or.inr ⟨kvs, rfl, hstat1 ▸ hvk⟩))
        · rw [if_neg hsrc] at h
          obtain ⟨v, hv, hvor⟩ := statusResolve kvs
            (if jsonTruthy (getK kvs "answer") then "answerable" else "not_found")
          refine ⟨_, v, (Option.some.inj h).symm, hv, ?_⟩
          rcases hvor with rfl | hvk
          · by_cases hansT : jsonTruthy (getK kvs "answer") = true
            · exact Or.inl (by rw [if_pos hansT])
            · exact Or.inr (Or.inl (by rw [if_neg hansT]))
          · exact Or.inr (Or.inr (Or.inr ⟨kvs, rfl, hvk⟩))

/-- C9 counterexample: a reply carrying `status="banana"` is passed
through — the returned status is not one of the three canonical values. -/
theorem c9_counterexample :
    llm_answer id id [] [] [] "b" "\x7b\"status\": \"banana\", \"answer\": \"hi\"\x7d" =
      some (Json.obj [("status", Json.str "banana"), ("answer", Json.str "hi"),
        ("sources", Json.arr [])]) ∧
    ("banana" ≠ "answerable" ∧ "banana" ≠ "not_found" ∧ "banana" ≠ "error") :=
  ⟨rfl, by decide⟩

/-- C9 witness: on a status-less reply the derived status is one of the
canonical values. -/
theorem c9_witness :
    ∃ kvs2 v,
      (Json.obj [("answer", Json.str "hi"), ("sources", Json.arr []),
        ("status", Json.str "answerable")]) = Json.obj kvs2 ∧
      getK kvs2 "status" = some v ∧
      (v = Json.str "answerable" ∨ v = Json.str "not_found" ∨ v = Json.str "error" ∨
        ∃ pk, safe_json_loads "\x7b\"answer\": \"hi\"\x7d" = Json.obj pk ∧
          getK pk "status" = some v) :=
  c9_llm_answer_status id id [] [] [] "b" "\x7b\"answer\": \"hi\"\x7d" _ rfl

/-! ### Claim C3 — similarity search ranking -/

/-- The descending-index tie-breaking sort satisfies the argsort
contract. -/
theorem unstableArgsort_spec : ArgsortSpec unstableArgsort := by
  intro d
  have htot : ∀ x y : Nat,
      (decide (distAt d x < distAt d y ∨ (distAt d x = distAt d y ∧ y ≤ x)) = true) ∨
      (decide (distAt d y < distAt d x ∨ (distAt d y = distAt d x ∧ x ≤ y)) = true) := by
    intro x y; simp only [decide_eq_true_eq]; omega
  have htrans : ∀ x y z : Nat,
      decide (distAt d x < distAt d y ∨ (distAt d x = distAt d y ∧ y ≤ x)) = true →
      decide (distAt d y < distAt d z ∨ (distAt d y = distAt d z ∧ z ≤ y)) = true →
      decide (distAt d x < distAt d z ∨ (distAt d x = distAt d z ∧ z ≤ x)) = true := by
    intro x y z; simp only [decide_eq_true_eq]; omega
  refine ⟨sortBy_perm _ _, ?_⟩
  have h := sortBy_pairwise
    (fun i j => decide (distAt d i < distAt d j ∨ (distAt d i = distAt d j ∧ j ≤ i)))
    htot htrans (List.range d.length)
  exact h.imp (fun hxy => by simp only [decide_eq_true_eq] at hxy; omega)

/-- C3 (corrected): for every argsort implementation satisfying the numpy
sorting contract, `retrieve_local` returns the `k` lowest-distance indices
(the taken prefix is ranked non-decreasingly, has no duplicates, has
length `min k n`, and every returned index has distance ≤ every
non-returned index), and the returned similarities are exactly
`1 - distance`; the result is a pure function of the distance row and `k`,
hence identical on repeated calls with the same embedding.  Equal-distance
tie order, however, is NOT guaranteed to follow original chunk order: the
default `np.argsort` kind is unstable, and the counterexample exhibits a
contract-satisfying argsort that reverses a tie. -/
theorem c3_retrieve_local_spec (f : List Int → List Nat) (hf : ArgsortSpec f)
    (d : List Int) (k : Nat) :
    (retrieve_local f d k).2 = (retrieve_local f d k).1.map (fun i => 1 - distAt d i) ∧
    List.Pairwise (fun i j => distAt d i ≤ distAt d j) (retrieve_local f d k).1 ∧
    (retrieve_local f d k).1.Nodup ∧
    (retrieve_local f d k).1.length = min k d.length ∧
    (∀ i ∈ (retrieve_local f d k).1, i < d.length) ∧
    (∀ i ∈ (retrieve_local f d k).1, ∀ j, j < d.length →
      j ∉ (retrieve_local f d k).1 → distAt d i ≤ distAt d j) := by
  obtain ⟨hperm, hsort⟩ := hf d
  have hidx : (retrieve_local f d k).1 = (f d).take k := rfl
  refine ⟨rfl, ?_, ?_, ?_, ?_, ?_⟩
  · rw [hidx]; exact List.Pairwise.sublist (List.take_sublist k (f d)) hsort
  · rw [hidx]
    exact (List.take_sublist k (f d)).nodup (hperm.nodup_iff.mpr (List.nodup_range _))
  · rw [hidx, List.length_take, hperm.length_eq, List.length_range]
  · intro i hi
    rw [hidx] at hi
    exact List.mem_range.mp (hperm.mem_iff.mp ((List.take_sublist k (f d)).subset hi))
  · intro i hi j hj hnj
    rw [hidx] at hi hnj
    have hjf : j ∈ f d := hperm.mem_iff.mpr (List.mem_range.mpr hj)
    have hsplit := List.take_append_drop k (f d)
    have hpw := hsort
    rw [← hsplit] at hpw hjf
    rcases List.mem_append.mp hjf with hjt | hjd
    · exact absurd hjt hnj
    · exact (List.pairwise_append.mp hpw).2.2 i hi j hjd

/-- C3 counterexample: the claim's stable-tie property fails — there is a
contract-satisfying argsort (`unstableArgsort`, the documented numpy
contract guarantees no more for the default quicksort kind) under which
the two tied rows of `d = [0, 0]` come back as `[1, 0]`, not in original
order. -/
theorem c3_counterexample :
    ¬ ∀ f : List Int → List Nat, ArgsortSpec f → ∀ (d : List Int) (k : Nat),
      List.Pairwise (fun i j => distAt d i < distAt d j ∨
        (distAt d i = distAt d j ∧ i < j)) (retrieve_local f d k).1 := by
  intro hcl
  have h := hcl unstableArgsort unstableArgsort_spec [0, 0] 2
  have he : (retrieve_local unstableArgsort [0, 0] 2).1 = [1, 0] := by rfl
  rw [he] at h
  exact absurd (List.rel_of_pairwise_cons h (List.mem_singleton.mpr rfl)) (by decide)

/-- C3 witness: on the distance row `[5, 2, 2, 7]` with `k = 3` the
returned similarities are exactly `1 - distance` and the index list has no
duplicates. -/
theorem c3_witness :
    ArgsortSpec unstableArgsort ∧
    (retrieve_local unstableArgsort [5, 2, 2, 7] 3).2 =
      (retrieve_local unstableArgsort [5, 2, 2, 7] 3).1.map
        (fun i => 1 - distAt [5, 2, 2, 7] i) ∧
    (retrieve_local unstableArgsort [5, 2, 2, 7] 3).1.Nodup :=
  ⟨unstableArgsort_spec,
   (c3_retrieve_local_spec unstableArgsort unstableArgsort_spec [5, 2, 2, 7] 3).1,
   (c3_retrieve_local_spec unstableArgsort unstableArgsort_spec [5, 2, 2, 7] 3).2.2.1⟩

/-! ### Claim C8 — source list construction -/

/-- The emission loop equals the first-occurrence subsequence truncated to
`max (limit - c) 1` entries (the `1` floor is the post-append break: one
entry is emitted before `len(res) >= limit` is ever checked). -/
theorem buildIdx_eq (chunks : List Chunk) (limit : Int) :
    ∀ (l : List Nat) (c : Int) (seen : List (Option String × Option Int)),
      buildIdx chunks limit c l seen =
        (firstOccIdx chunks l seen).take (max (limit - c) 1).toNat
  | [], c, seen => by simp [buildIdx, firstOccIdx]
  | i :: rest, c, seen => by
      simp only [buildIdx, firstOccIdx]
      by_cases h : srcKey (chunks.getD i default) ∈ seen
      · rw [if_pos h, if_pos h]
        exact buildIdx_eq chunks limit rest c seen
      · rw [if_neg h, if_neg h]
        have hM : (max (limit - c) 1).toNat = ((max (limit - c) 1).toNat - 1) + 1 := by
          omega
        rw [hM, List.take_succ_cons]
        congr 1
        by_cases hb : limit ≤ c + 1
        · rw [if_pos hb]
          have hz : (max (limit - c) 1).toNat - 1 = 0 := by omega
          rw [hz, List.take_zero]
        · rw [if_neg hb, buildIdx_eq chunks limit rest (c + 1) _]
          congr 1
          omega

/-- The first-occurrence subsequence respects the ranked hit order. -/
theorem firstOccIdx_sublist (chunks : List Chunk) :
    ∀ (l : List Nat) (seen : List (Option String × Option Int)),
      (firstOccIdx chunks l seen).Sublist l
  | [], _ => List.nil_sublist _
  | i :: rest, seen => by
      simp only [firstOccIdx]
      by_cases h : srcKey (chunks.getD i default) ∈ seen
      · rw [if_pos h]; exact (firstOccIdx_sublist chunks rest seen).cons _
      · rw [if_neg h]; exact (firstOccIdx_sublist chunks rest _).cons₂ _

/-- Emitted hits never carry an already-seen `(title, page)` key. -/
theorem firstOccIdx_notseen (chunks : List Chunk) :
    ∀ (l : List Nat) (seen : List (Option String × Option Int)),
      ∀ p ∈ firstOccIdx chunks l seen, srcKey (chunks.getD p default) ∉ seen
  | [], _, p, hp => by simp [firstOccIdx] at hp
  | i :: rest, seen, p, hp => by
      simp only [firstOccIdx] at hp
      by_cases h : srcKey (chunks.getD i default) ∈ seen
      · rw [if_pos h] at hp; exact firstOccIdx_notseen chunks rest seen p hp
      · rw [if_neg h] at hp
        rcases List.mem_cons.mp hp with rfl | hp2
        · exact h
        · intro hmem
          exact firstOccIdx_notseen chunks rest _ p hp2 (List.mem_cons_of_mem _ hmem)

/-- The emitted `(title, page)` keys are pairwise distinct. -/
theorem firstOccIdx_keys_nodup (chunks : List Chunk) :
    ∀ (l : List Nat) (seen : List (Option String × Option Int)),
      ((firstOccIdx chunks l seen).map (fun i => srcKey (chunks.getD i default))).Nodup
  | [], _ => by simp [firstOccIdx]
  | i :: rest, seen => by
      simp only [firstOccIdx]
      by_cases h : srcKey (chunks.getD i default) ∈ seen
      · rw [if_pos h]; exact firstOccIdx_keys_nodup chunks rest seen
      · rw [if_neg h]
        simp only [List.map_cons, List.nodup_cons]
        refine ⟨?_, firstOccIdx_keys_nodup chunks rest _⟩
        intro hmem
        rcases List.mem_map.mp hmem with ⟨p, hp, he⟩
        have hin : srcKey (chunks.getD p default) ∈
            srcKey (chunks.getD i default) :: seen := by
          rw [he]; exact List.mem_cons_self _ _
        exact firstOccIdx_notseen chunks rest _ p hp hin

/-- C8 (corrected): for `limit ≥ 1`, `build_sources_from_idx` emits one
entry per first occurrence of a `(title, page)` key, iterating hits in
ranked order (the emitted index list is a sublist of `idx`), with pairwise
distinct keys, stopping at `limit` entries; emitted pages are the coerced
`int(page or 1)` value (1 for a missing page, the page itself for any
nonzero integer page), and the function is total (never raises).  For
`limit ≤ 0` the claim's "at most limit entries" bound fails, because the
break is only checked after an entry is appended — see the
counterexample. -/
theorem c8_build_sources_spec (nfc fold : String → String)
    (avail : List (String × String)) (chunks : List Chunk) (idx : List Nat)
    (base_url : String) (limit : Int) (hl : 1 ≤ limit)
    (hidx : ∀ i ∈ idx, i < chunks.length) :
    build_sources_from_idx nfc fold avail chunks idx base_url limit =
      ((firstOccIdx chunks idx []).take limit.toNat).map
        (fun i => mkSource nfc fold avail base_url (chunks.getD i default)) ∧
    (firstOccIdx chunks idx []).Sublist idx ∧
    (((firstOccIdx chunks idx []).take limit.toNat).map
      (fun i => srcKey (chunks.getD i default))).Nodup ∧
    (build_sources_from_idx nfc fold avail chunks idx base_url limit).length ≤
      limit.toNat ∧
    (∀ ch : Chunk, (mkSource nfc fold avail base_url ch).page = pageCoerce ch.page) ∧
    (pageCoerce none = 1 ∧ ∀ n : Int, n ≠ 0 → pageCoerce (some n) = n) := by
  have hM : (max (limit - 0) 1).toNat = limit.toNat := by omega
  have h1 : build_sources_from_idx nfc fold avail chunks idx base_url limit =
      ((firstOccIdx chunks idx []).take limit.toNat).map
        (fun i => mkSource nfc fold avail base_url (chunks.getD i default)) := by
    unfold build_sources_from_idx
    rw [buildIdx_eq, hM]
  refine ⟨h1, firstOccIdx_sublist chunks idx [], ?_, ?_, fun ch => rfl, rfl, ?_⟩
  · rw [List.map_take]
    exact (List.take_sublist _ _).nodup (firstOccIdx_keys_nodup chunks idx [])
  · rw [h1, List.length_map, List.length_take]
    exact min_le_left _ _
  · intro n hn; simp [pageCoerce, hn]

/-- C8 counterexample: with `limit = 0` and a non-empty hit list, one
entry is still emitted — the result does not have at most `limit`
entries. -/
theorem c8_counterexample :
    (build_sources_from_idx id id [] [{ title := some "T", page := some 2 }]
      [0] "http://e" 0).length = 1 ∧
    ¬ (build_sources_from_idx id id [] [{ title := some "T", page := some 2 }]
      [0] "http://e" 0).length ≤ (0 : Int).toNat :=
  ⟨rfl, by decide⟩

/-- C8 witness: with the default limit 3 the bound holds on a concrete
corpus. -/
theorem c8_witness :
    (1 : Int) ≤ 3 ∧
    (build_sources_from_idx id id [] [{ title := some "T", page := some 2 }]
      [0] "http://e" 3).length ≤ (3 : Int).toNat :=
  ⟨by decide,
   (c8_build_sources_spec id id [] [{ title := some "T", page := some 2 }] [0]
     "http://e" 3 (by decide) (by decide)).2.2.2.1⟩

/-! ### Claim C2 — page-window expansion -/

/-- Membership in the center-page list of a document. -/
theorem mem_seedCenters (chunks : List Chunk) (idx : List Nat) (d : Option String)
    (c : Int) :
    c ∈ seedCenters chunks idx d ↔
      ∃ i ∈ idx, (chunks.getD i default).doc_id = d ∧
        (chunks.getD i default).page = some c ∧ c ≠ 0 := by
  unfold seedCenters
  rw [List.mem_filterMap]
  constructor
  · rintro ⟨i, hi, hf⟩
    refine ⟨i, hi, ?_⟩
    rcases hp : (chunks.getD i default).page with _ | p
    · simp only [hp] at hf
      exact absurd hf (by simp)
    · simp only [hp] at hf
      split_ifs at hf with hcond
      obtain rfl := Option.some.inj hf
      exact ⟨hcond.1, rfl, hcond.2⟩
  · rintro ⟨i, hi, hdoc, hpage, hne⟩
    refine ⟨i, hi, ?_⟩
    simp only [hpage]
    rw [if_pos ⟨hdoc, hne⟩]

/-- The Boolean addition condition of the expansion loops, as a
proposition. -/
theorem expandCond_iff (chunks : List Chunk) (W : Int) (idx : List Nat) (j : Nat) :
    expandCond chunks W idx j = true ↔
      ((chunks.getD j default).doc_id ∈ seedDocs chunks idx ∧
        ∃ c ∈ seedCenters chunks idx (chunks.getD j default).doc_id,
          c - W ≤ effPage (chunks.getD j default) ∧
          effPage (chunks.getD j default) ≤ c + W) := by
  unfold expandCond
  rw [Bool.and_eq_true, decide_eq_true_eq, List.any_eq_true]
  simp only [decide_eq_true_eq]

/-- C2 (confirmed): `_expand_by_pages` returns exactly the union of the
seed hits with the same-document window chunks — position `j` is in the
result iff it is a seed hit, or some seed hit `i` of the same document has
a truthy page `p` with the effective page of `j` (0 when absent, per the
spec's data model) inside `[p − W, p + W]` — and the result is strictly
sorted by chunk index.  In particular every same-document chunk whose page
falls in a seed window is included, and no chunk of a non-seed document is
ever added. -/
theorem c2_expand_by_pages_spec (chunks : List Chunk) (W : Int) (idx : List Nat)
    (hidx : ∀ i ∈ idx, i < chunks.length) :
    (∀ j : Nat, j ∈ expand_by_pages chunks W idx ↔
      (j ∈ idx ∨ (j < chunks.length ∧ ∃ i ∈ idx,
        (chunks.getD j default).doc_id = (chunks.getD i default).doc_id ∧
        ∃ p : Int, (chunks.getD i default).page = some p ∧ p ≠ 0 ∧
          p - W ≤ effPage (chunks.getD j default) ∧
          effPage (chunks.getD j default) ≤ p + W))) ∧
    List.Sorted (· < ·) (expand_by_pages chunks W idx) := by
  have hperm := sortBy_perm (fun a b => decide (a ≤ b))
    ((idx ++ (List.range chunks.length).filter (expandCond chunks W idx)).dedup)
  constructor
  · intro j
    have h1 : j ∈ expand_by_pages chunks W idx ↔
        j ∈ (idx ++ (List.range chunks.length).filter (expandCond chunks W idx)).dedup :=
      hperm.mem_iff
    rw [h1, List.mem_dedup, List.mem_append, List.mem_filter, List.mem_range,
      expandCond_iff]
    constructor
    · rintro (h | ⟨hlen, _, c, hc, hw1, hw2⟩)
      · exact Or.inl h
      · rcases (mem_seedCenters chunks idx _ c).mp hc with ⟨i, hi, hdoc, hpage, hne⟩
        exact Or.inr ⟨hlen, i, hi, hdoc.symm, c, hpage, hne, hw1, hw2⟩
    · rintro (h | ⟨hlen, i, hi, hdoc, p, hpage, hne, hw1, hw2⟩)
      · exact Or.inl h
      · refine Or.inr ⟨hlen, ?_, ?_⟩
        · unfold seedDocs
          exact List.mem_map.mpr ⟨i, hi, hdoc.symm⟩
        · exact ⟨p, (mem_seedCenters chunks idx _ p).mpr ⟨i, hi, hdoc.symm, hpage, hne⟩,
            hw1, hw2⟩
  · have htot : ∀ x y : Nat, decide (x ≤ y) = true ∨ decide (y ≤ x) = true := by
      intro x y; simp only [decide_eq_true_eq]; omega
    have htrans : ∀ x y z : Nat,
        decide (x ≤ y) = true → decide (y ≤ z) = true → decide (x ≤ z) = true := by
      intro x y z; simp only [decide_eq_true_eq]; omega
    have hpw := sortBy_pairwise (fun a b => decide (a ≤ b)) htot htrans
      ((idx ++ (List.range chunks.length).filter (expandCond chunks W idx)).dedup)
    have hle : List.Sorted (· ≤ ·) (expand_by_pages chunks W idx) :=
      hpw.imp (fun h => of_decide_eq_true h)
    have hnd : (expand_by_pages chunks W idx).Nodup :=
      hperm.nodup_iff.mpr (List.nodup_dedup _)
    exact hle.lt_of_le hnd

/-- C2 witness: with window 1 and a seed hit on page 3 of document A, the
page-4 chunk of document A is pulled in and the result is sorted. -/
theorem c2_witness :
    (0 : Nat) < 2 ∧
    1 ∈ expand_by_pages
      [{ doc_id := some "A", page := some 3 }, { doc_id := some "A", page := some 4 }]
      1 [0] ∧
    List.Sorted (· < ·) (expand_by_pages
      [{ doc_id := some "A", page := some 3 }, { doc_id := some "A", page := some 4 }]
      1 [0]) := by
  have h := c2_expand_by_pages_spec
    [{ doc_id := some "A", page := some 3 }, { doc_id := some "A", page := some 4 }]
    1 [0] (by decide)
  refine ⟨by decide, ?_, h.2⟩
  exact (h.1 1).mpr (Or.inr ⟨by decide, 0, by decide, by decide, 3, by decide,
    by decide, by decide, by decide⟩)

/-! ### Claim C4 — the list harvester -/

/-- C4 (corrected): the harvest renders the extracted `(number, text)`
pairs after the stable `(number asc, text length asc)` sort and
first-per-number dedup — output numbers are strictly ascending, each kept
pair is an extracted pair of minimal text length for its number, every
extracted number is represented, lines render as `"{number}. {text}"`, and
the result is empty exactly when no items were extracted.  The claim's
"strips trailing period(s)" is wrong as stated: only ONE trailing period
(with adjacent whitespace) is stripped, and only from numbered-list
pattern items — table-pattern items keep their text verbatim (see the
counterexample). -/
theorem c4_harvest_spec (chunks : List Chunk) (idxs : List Nat)
    (hidx : ∀ i ∈ idxs, i < chunks.length) :
    harvest_items_from_chunks chunks idxs = (harvestPairs chunks idxs).map renderItem ∧
    List.Pairwise (fun p q => p.1 < q.1) (harvestPairs chunks idxs) ∧
    (∀ p ∈ harvestPairs chunks idxs, p ∈ harvestItems chunks idxs ∧
      ∀ q ∈ harvestItems chunks idxs, q.1 = p.1 → p.2.length ≤ q.2.length) ∧
    (∀ q ∈ harvestItems chunks idxs, ∃ p ∈ harvestPairs chunks idxs, p.1 = q.1) ∧
    (harvestItems chunks idxs = [] ↔ harvest_items_from_chunks chunks idxs = []) := by
  have htot : ∀ x y : Nat × String, itemLe x y = true ∨ itemLe y x = true := by
    intro x y; simp only [itemLe, decide_eq_true_eq]; omega
  have htrans : ∀ x y z : Nat × String,
      itemLe x y = true → itemLe y z = true → itemLe x z = true := by
    intro x y z; simp only [itemLe, decide_eq_true_eq]; omega
  have hsort := sortBy_pairwise itemLe htot htrans (harvestItems chunks idxs)
  have hperm := sortBy_perm itemLe (harvestItems chunks idxs)
  have heq1 : harvest_items_from_chunks chunks idxs =
      if (harvestItems chunks idxs).isEmpty then []
      else (harvestPairs chunks idxs).map renderItem := rfl
  refine ⟨?_, ?_, ?_, ?_, ?_⟩
  · rw [heq1]
    by_cases hi : (harvestItems chunks idxs).isEmpty = true
    · rw [if_pos hi]
      have hnil : harvestItems chunks idxs = [] := List.isEmpty_iff.mp hi
      unfold harvestPairs
      rw [hnil]
      rfl
    · rw [if_neg hi]
  · have hP := List.Pairwise.sublist (dedupByNum_sublist _ []) hsort
    have hne := dedupByNum_pairwise_ne (sortBy itemLe (harvestItems chunks idxs)) []
    refine (hP.and hne).imp ?_
    rintro a b ⟨h1, h2⟩
    simp only [itemLe, decide_eq_true_eq] at h1
    rcases h1 with h | h
    · exact h
    · exact absurd h.1 h2
  · intro p hp
    refine ⟨hperm.mem_iff.mp ((dedupByNum_sublist _ []).subset hp), ?_⟩
    intro q hq hnum
    exact dedupByNum_minlen _ [] hsort p hp q (hperm.mem_iff.mpr hq) hnum
  · intro q hq
    rcases dedupByNum_covers _ [] q (hperm.mem_iff.mpr hq) with hs | ⟨p, hp, he⟩
    · exact absurd hs (List.not_mem_nil _)
    · exact ⟨p, hp, he⟩
  · constructor
    · intro he
      rw [heq1, if_pos (List.isEmpty_iff.mpr he)]
    · intro hh
      by_contra hne2
      have hi : (harvestItems chunks idxs).isEmpty = false := by
        rcases hcase : harvestItems chunks idxs with _ | ⟨x, rest⟩
        · exact absurd hcase hne2
        · rfl
      rw [heq1, if_neg (by simp [hi])] at hh
      have hlen := hperm.length_eq
      rcases hcase : sortBy itemLe (harvestItems chunks idxs) with _ | ⟨x, rest⟩
      · rw [hcase] at hlen
        exact hne2 (List.length_eq_zero.mp hlen.symm)
      · obtain ⟨n, t⟩ := x
        unfold harvestPairs at hh
        rw [hcase] at hh
        simp [dedupByNum] at hh

/-- C4 counterexample: in the chunk `"[ТАБЛИЦА]\n1. Foo..\n2 Bar."` the
numbered-line item keeps one of its two trailing periods (`"Foo."`) and
the table item keeps its trailing period verbatim (`"Bar."`) — trailing
periods are NOT (all) stripped. -/
theorem c4_counterexample :
    harvest_items_from_chunks [{ text := "[ТАБЛИЦА]\n1. Foo..\n2 Bar." }] [0] =
      ["1. Foo.", "2. Bar."] ∧
    "1. Foo." ≠ "1. Foo" ∧ "2. Bar." ≠ "2. Bar" :=
  ⟨rfl, by decide, by decide⟩

/-- C4 witness: on the spec's dedup scenario (duplicated number 1 with a
longer variant) the shorter text wins and the output is the rendered kept
pairs. -/
theorem c4_witness :
    (0 : Nat) < 1 ∧
    harvest_items_from_chunks [{ text := "1. Foo\n1. Foo bar baz" }] [0] =
      (harvestPairs [{ text := "1. Foo\n1. Foo bar baz" }] [0]).map renderItem ∧
    List.Pairwise (fun p q => p.1 < q.1)
      (harvestPairs [{ text := "1. Foo\n1. Foo bar baz" }] [0]) ∧
    harvest_items_from_chunks [{ text := "1. Foo\n1. Foo bar baz" }] [0] = ["1. Foo"] := by
  have h := c4_harvest_spec [{ text := "1. Foo\n1. Foo bar baz" }] [0] (by decide)
  exact ⟨by decide, h.1, h.2.1, rfl⟩
